import Mathlib

/-!
Shallow embedding of the hyperfleet-adapter execution engine.

The embedding follows the Go sources: the event interpreter
(`internal/executor/executor.go`), the precondition executor and the
post-action executor.  External collaborators whose sources are not part
of the repository snapshot (the HTTP client, the CEL/conditions
evaluator of the `criteria` package, parameter extraction, the resource
executor and the payload builder) are passed in as function parameters
or modelled from the specification; such definitions say so in their doc
comments.

Go maps are modelled as association lists, byte-string JSON bodies as
their parse result (`Option JValue`), and the Go `error` results as
`Option`/`Except` values.
-/

namespace HF

/-- A single quote character, used when assembling diagnostic messages. -/
def sq : String := String.mk [Char.ofNat 39]

/-- Dynamically shaped JSON-compatible value (event payloads, params,
API response bodies, manifests). -/
inductive JValue where
  | null
  | bool (b : Bool)
  | num (n : Int)
  | str (s : String)
  | arr (elems : List JValue)
  | obj (fields : List (String × JValue))

/-- The parse result of a raw byte-string body: `none` when the bytes
are not valid JSON. -/
abbrev RawBody := Option JValue

/-- Execution status of a step or of the whole event. -/
inductive Status where
  | success
  | failed
deriving DecidableEq, Repr

/-- The four fixed phases of the interpreter. -/
inductive Phase where
  | paramExtraction
  | preconditions
  | resources
  | postActions
deriving DecidableEq, Repr

/-- The string form of a phase, as stored in adapter metadata
(`string(PhasePreconditions)` in Go). -/
def Phase.toStr : Phase → String
  | .paramExtraction => "paramExtraction"
  | .preconditions => "preconditions"
  | .resources => "resources"
  | .postActions => "postActions"

/-- Log severities used by the engine. -/
inductive LogLevel where
  | debug
  | info
  | warn
  | error
deriving DecidableEq, Repr

/-- One emitted log line. -/
abbrev LogEntry := LogLevel × String

/-- The `adapter.executionError = {phase, step, message}` record stored
in the evaluation context. -/
structure ExecutionError where
  phase : String
  step : String
  message : String
deriving DecidableEq, Repr

/-- The typed error returned by phase executors
(`NewExecutorError(phase, step, message, cause)` in Go). -/
structure ExecutorError where
  phase : Phase
  step : String
  message : String
  cause : String := ""
deriving DecidableEq, Repr

/-- Modelled from the spec: the `Error()` string of an executor error,
"message: cause" (the exact Go formatting lives in the missing types
file; only its shape matters here). -/
def ExecutorError.errString (e : ExecutorError) : String :=
  if e.cause = "" then e.message else e.message ++ ": " ++ e.cause

/-- Modelled from the spec: per-event adapter metadata (C1 of the spec).
Holds name, version, event id, the `executionError` record written by
the phase executors, and the `setError` / `setSkipped` reason-message
pairs. -/
structure AdapterMeta where
  name : String := ""
  version : String := ""
  eventID : String := ""
  executionError : Option ExecutionError := none
  errorInfo : Option (String × String) := none
  skippedInfo : Option (String × String) := none
deriving DecidableEq, Repr

/-- Modelled from the spec: an entry of the append-only `evaluations`
record list of the evaluation context. -/
inductive EvalRecord where
  | conds (phase step : String) (matched : Bool)
  | cel (phase step expr : String) (matched : Bool)
deriving DecidableEq, Repr

/-- Modelled from the spec: the per-event evaluation context with
`params`, adapter metadata, the immutable parsed event payload, and the
evaluation records. -/
structure ExecutionContext where
  params : List (String × JValue) := []
  adapter : AdapterMeta := {}
  eventData : List (String × JValue) := []
  evaluations : List EvalRecord := []

/-- Modelled from the spec: map assignment `params[k] = v` on the
association-list model — overwrite an existing binding, else append. -/
def setParam (ps : List (String × JValue)) (k : String) (v : JValue) :
    List (String × JValue) :=
  if ps.any (fun kv => kv.1 = k) then
    ps.map (fun kv => if kv.1 = k then (k, v) else kv)
  else
    ps ++ [(k, v)]

/-- Modelled from the spec: `setError(reason, msg)` on the evaluation
context records a reason and message in adapter metadata. -/
def ExecutionContext.setErr (ctx : ExecutionContext) (reason msg : String) :
    ExecutionContext :=
  { ctx with adapter := { ctx.adapter with errorInfo := some (reason, msg) } }

/-- Modelled from the spec: `setSkipped(reason, msg)` on the evaluation
context records a skip reason and message in adapter metadata. -/
def ExecutionContext.setSkip (ctx : ExecutionContext) (reason msg : String) :
    ExecutionContext :=
  { ctx with adapter := { ctx.adapter with skippedInfo := some (reason, msg) } }

/-- The direct assignment `execCtx.Adapter.ExecutionError = &ExecutionError{...}`
performed by the phase executors. -/
def ExecutionContext.setExecError (ctx : ExecutionContext)
    (phase step msg : String) : ExecutionContext :=
  { ctx with adapter := { ctx.adapter with executionError := some ⟨phase, step, msg⟩ } }

/-- Modelled from the spec: `addConditionsEvaluation` appends a record. -/
def ExecutionContext.addCondsEval (ctx : ExecutionContext)
    (phase step : String) (matched : Bool) : ExecutionContext :=
  { ctx with evaluations := ctx.evaluations ++ [.conds phase step matched] }

/-- Modelled from the spec: `addCELEvaluation` appends a record. -/
def ExecutionContext.addCelEval (ctx : ExecutionContext)
    (phase step expr : String) (matched : Bool) : ExecutionContext :=
  { ctx with evaluations := ctx.evaluations ++ [.cel phase step expr matched] }

/-! ## Configuration surface (read-only `AdapterConfig` tree) -/

/-- An API call descriptor from the configuration. -/
structure APICall where
  method : String
  url : String
deriving DecidableEq, Repr

/-- A `capture[]` entry of a precondition: `{sourceField(dotted), boundName}`. -/
structure CaptureSpec where
  field : String
  name : String
deriving DecidableEq, Repr

/-- A structured condition `{field(dotted), operator, expectedValue}`.
The evaluator for these lives in the missing `criteria` package and is a
parameter of the executors. -/
structure Condition where
  field : String
  operator : String
  expectedValue : String
deriving DecidableEq, Repr

/-- A precondition from the configuration. -/
structure Precondition where
  name : String
  logMessage : Option String := none
  apiCall : Option APICall := none
  capture : List CaptureSpec := []
  conditions : List Condition := []
  expression : String := ""

/-- A post payload declaration; its build tree is consumed by the
payload-builder collaborator. -/
structure Payload where
  name : String

/-- A post action from the configuration. -/
structure PostAction where
  name : String
  logMessage : Option String := none
  apiCall : Option APICall := none

/-- The `post` section: payloads first, then post actions. -/
structure PostConfig where
  payloads : List Payload := []
  postActions : List PostAction := []

/-- A resource declaration; the resource executor collaborator consumes
it. -/
structure Resource where
  name : String

/-- The `spec` part of the adapter configuration consumed by `Execute`. -/
structure AdapterSpec where
  preconditions : List Precondition := []
  resources : List Resource := []
  post : Option PostConfig := none

/-! ## API call collaborator -/

/-- An HTTP response: parsed body and status code. -/
structure APIResponse where
  body : RawBody
  statusCode : Int

/-- `resp.IsSuccess()`: status in the 2xx range. -/
def APIResponse.IsSuccess (r : APIResponse) : Bool :=
  200 ≤ r.statusCode && r.statusCode < 300

/-- What the HTTP collaborator does for one call. -/
inductive APICallOutcome where
  | transportError (msg : String)
  | response (resp : APIResponse)

/-- The typed API error classification of the spec (§4.7):
transport failure or non-2xx status. -/
inductive APIError where
  | transport (method url msg : String)
  | status (method url : String) (code : Int) (body : RawBody)

/-- Modelled from the spec: the message text of an API error (the Go
`Error()` text lives in the missing `hyperfleet_api` package). -/
def APIError.errMessage : APIError → String
  | .transport m u s => "transport error calling " ++ m ++ " " ++ u ++ ": " ++ s
  | .status m u c _ =>
      "API call " ++ m ++ " " ++ u ++ " returned status " ++ toString c

/-- Modelled from the spec: `ExecuteAPICall` renders the call and invokes
the HTTP collaborator, returning `(resp, url, err)` like the Go helper.
The collaborator itself is the `client` parameter. -/
def ExecuteAPICall (client : APICall → APICallOutcome) (c : APICall) :
    Option APIResponse × String × Option String :=
  match client c with
  | .transportError m => (none, c.url, some m)
  | .response r => (some r, c.url, none)

/-- Modelled from the spec: `ValidateAPIResponse` classifies the outcome —
a transport error yields an `APIError.transport`, a response outside the
2xx range yields an `APIError.status`, otherwise no error. -/
def ValidateAPIResponse (resp : Option APIResponse) (err : Option String)
    (method url : String) : Option APIError :=
  match err with
  | some e => some (.transport method url e)
  | none =>
    match resp with
    | none => some (.transport method url "no response received")
    | some r => if r.IsSuccess then none else some (.status method url r.statusCode r.body)

/-! ## Outcome records -/

/-- Modelled from the spec: a per-condition record produced by the
`criteria` evaluator (field, operator, expected, actual, matched). -/
structure EvaluationResult where
  field : String
  operator : String
  expectedValue : String
  fieldValue : String
  matched : Bool
deriving DecidableEq, Repr

/-- Modelled from the spec: overall result of structured-condition
evaluation. -/
structure ConditionsOutcome where
  matched : Bool
  results : List EvaluationResult
deriving DecidableEq, Repr

/-- Modelled from the spec: result of CEL evaluation — runtime errors
yield `matched = false` with a non-empty `errorReason`. -/
structure CELResult where
  matched : Bool
  errorReason : String := ""
deriving DecidableEq, Repr

/-- `celResult.HasError()`. -/
def CELResult.HasError (c : CELResult) : Bool := c.errorReason ≠ ""

/-- The outcome record of one precondition. -/
structure PreconditionResult where
  name : String
  status : Status
  matched : Bool := false
  capturedFields : List (String × JValue) := []
  apiCallMade : Bool := false
  apiResponse : Option RawBody := none
  conditionResults : List EvaluationResult := []
  celResult : Option CELResult := none
  error : Option String := none

/-- The aggregate outcome of the preconditions phase. -/
structure PreconditionsOutcome where
  allMatched : Bool
  results : List PreconditionResult
  error : Option ExecutorError := none
  notMetReason : String := ""

/-- The outcome record of one resource step. -/
structure ResourceResult where
  name : String
  status : Status
  applyError : Option String := none

/-- The outcome record of one post action. -/
structure PostActionResult where
  name : String
  status : Status
  apiCallMade : Bool := false
  apiResponse : Option RawBody := none
  httpStatus : Option Int := none
  error : Option APIError := none

/-! ## Precondition executor (`executor/preconditions.go`) -/

/-- Model of Go `strings.Split(s, ".")`, by structural recursion over
the characters (so that it evaluates inside the kernel). -/
def splitDotAux : List Char → List Char → List String
  | [], acc => [String.mk acc.reverse]
  | c :: rest, acc =>
    if c = Char.ofNat 46 then String.mk acc.reverse :: splitDotAux rest []
    else splitDotAux rest (c :: acc)

/-- Split a dotted path into its parts. -/
def splitDot (s : String) : List String := splitDotAux s.data []

/-- Model of Go `strings.Join(parts, ".")`. -/
def joinDots : List String → String
  | [] => ""
  | [x] => x
  | x :: rest => x ++ "." ++ joinDots rest

/-- Association-list lookup, the model of a Go map read. -/
def lookupField (fields : List (String × JValue)) (k : String) : Option JValue :=
  match fields.find? (fun kv => kv.1 = k) with
  | some kv => some kv.2
  | none => none

/-- The loop body of `captureFieldFromData`: walk the remaining path
parts, keeping the parts already consumed for the error message. -/
def captureLoop : List String → List String → JValue → Except String JValue
  | [], _, current => .ok current
  | part :: rest, seen, current =>
    match current with
    | .obj fields =>
      match lookupField fields part with
      | some v => captureLoop rest (seen ++ [part]) v
      | none =>
          .error ("field " ++ sq ++ part ++ sq ++ " not found at path " ++ sq ++
            joinDots (seen ++ [part]) ++ sq)
    | _ =>
        .error ("cannot access field " ++ sq ++ part ++ sq ++
          ": parent is not a map")

/-- `captureFieldFromData`: extract a value from API response data by
dotted path. -/
def captureFieldFromData (data : List (String × JValue)) (path : String) :
    Except String JValue :=
  captureLoop (splitDot path) [] (.obj data)

/-- The warn message logged when a capture entry fails. -/
def captureWarnMsg (cp : CaptureSpec) (e : String) : String :=
  "Failed to capture field " ++ sq ++ cp.field ++ sq ++ " as " ++ sq ++
    cp.name ++ sq ++ ": " ++ e

/-- The capture loop of `executePrecondition`: each entry either binds
its value into the captured-fields map and `params`, or logs a warning
and is skipped. Returns (capturedFields, params, logs). -/
def processCaptures (data : List (String × JValue)) :
    List CaptureSpec → List (String × JValue) → List (String × JValue) →
    List (String × JValue) × List (String × JValue) × List LogEntry
  | [], captured, params => (captured, params, [])
  | cp :: rest, captured, params =>
    match captureFieldFromData data cp.field with
    | .error e =>
      let out := processCaptures data rest captured params
      (out.1, out.2.1, (LogLevel.warn, captureWarnMsg cp e) :: out.2.2)
    | .ok v =>
      processCaptures data rest (setParam captured cp.name v) (setParam params cp.name v)

/-- `formatConditionDetails`: compose the not-met detail text from the
CEL error and the unmatched condition records. -/
def formatConditionDetails (result : PreconditionResult) : String :=
  let celDetails : List String :=
    match result.celResult with
    | some cr => if cr.HasError then ["CEL error: " ++ cr.errorReason] else []
    | none => []
  let condDetails : List String :=
    result.conditionResults.filterMap (fun cr =>
      if cr.matched then none
      else some (cr.field ++ " " ++ cr.operator ++ " " ++ cr.expectedValue ++
        " (actual: " ++ cr.fieldValue ++ ")"))
  let details := celDetails ++ condDetails
  if details = [] then "no specific details available"
  else String.intercalate "; " details

/-- Return bundle of a single step: its recorded result, the updated
evaluation context, the emitted log lines, and the control-flow error. -/
structure StepOut (α : Type) where
  result : α
  ctx : ExecutionContext
  logs : List LogEntry
  err : Option ExecutorError

/-- `pe.executeAPICall` in the precondition executor: run the call and
validate the response, returning the body for field capture. -/
def preExecuteAPICall (client : APICall → APICallOutcome) (c : APICall) :
    Except APIError RawBody :=
  let out := ExecuteAPICall client c
  match ValidateAPIResponse out.1 out.2.2 c.method c.url with
  | some ve => .error ve
  | none =>
    match out.1 with
    | some r => .ok r.body
    | none => .error (.transport c.method c.url "no response received")

/-- Step 3 of `executePrecondition`: evaluate structured conditions or
the CEL expression (or trivially match when neither is declared),
record the evaluation, and log the outcome. The two evaluator back-ends
live in the missing `criteria` package and are parameters. -/
def evalPrecondStep
    (evalConds : List Condition → List (String × JValue) → Except String ConditionsOutcome)
    (evalCEL : String → List (String × JValue) → Except String CELResult)
    (precond : Precondition) (result : PreconditionResult)
    (execCtx : ExecutionContext) (logs : List LogEntry) :
    StepOut PreconditionResult :=
  let finish (r : PreconditionResult) (c : ExecutionContext) (ls : List LogEntry) :
      StepOut PreconditionResult :=
    let tail : LogEntry :=
      if r.matched then
        (LogLevel.info, "Precondition " ++ sq ++ precond.name ++ sq ++ " satisfied")
      else
        (LogLevel.warn, "Precondition " ++ sq ++ precond.name ++ sq ++ " not satisfied")
    { result := r, ctx := c, logs := ls ++ [tail], err := none }
  if precond.conditions.isEmpty = false then
    match evalConds precond.conditions execCtx.params with
    | .error e =>
      { result := { result with status := .failed, error := some e },
        ctx := execCtx, logs := logs,
        err := some { phase := .preconditions, step := precond.name,
                      message := "condition evaluation failed", cause := e } }
    | .ok co =>
      let r := { result with matched := co.matched, conditionResults := co.results }
      finish r (execCtx.addCondsEval "preconditions" precond.name co.matched) logs
  else if precond.expression ≠ "" then
    match evalCEL precond.expression.trim execCtx.params with
    | .error e =>
      { result := { result with status := .failed, error := some e },
        ctx := execCtx, logs := logs,
        err := some { phase := .preconditions, step := precond.name,
                      message := "CEL expression evaluation failed", cause := e } }
    | .ok cr =>
      let r := { result with matched := cr.matched, celResult := some cr }
      finish r (execCtx.addCelEval "preconditions" precond.name precond.expression cr.matched) logs
  else
    finish { result with matched := true } execCtx logs

/-- `executePrecondition`: optional log action, optional API call with
response parsing and field capture, then condition evaluation. -/
def executePrecondition (client : APICall → APICallOutcome)
    (evalConds : List Condition → List (String × JValue) → Except String ConditionsOutcome)
    (evalCEL : String → List (String × JValue) → Except String CELResult)
    (precond : Precondition) (execCtx : ExecutionContext) :
    StepOut PreconditionResult :=
  let result : PreconditionResult :=
    { name := precond.name, status := .success, capturedFields := [] }
  let logs0 : List LogEntry :=
    (LogLevel.info, "Evaluating precondition: " ++ precond.name) ::
      (match precond.logMessage with
       | some m => [(LogLevel.info, m)]
       | none => [])
  match precond.apiCall with
  | none => evalPrecondStep evalConds evalCEL precond result execCtx logs0
  | some call =>
    match preExecuteAPICall client call with
    | .error ve =>
      { result := { result with status := .failed, error := some ve.errMessage },
        ctx := execCtx.setExecError Phase.preconditions.toStr precond.name ve.errMessage,
        logs := logs0,
        err := some { phase := .preconditions, step := precond.name,
                      message := "API call failed", cause := ve.errMessage } }
    | .ok body =>
      let result := { result with apiCallMade := true, apiResponse := some body }
      match body with
      | some (.obj responseData) =>
        let cap := processCaptures responseData precond.capture result.capturedFields execCtx.params
        let result := { result with capturedFields := cap.1 }
        let execCtx := { execCtx with params := cap.2.1 }
        evalPrecondStep evalConds evalCEL precond result execCtx (logs0 ++ cap.2.2)
      | _ =>
        let msg := "failed to parse API response as JSON"
        { result := { result with status := .failed, error := some msg },
          ctx := execCtx.setExecError Phase.preconditions.toStr precond.name msg,
          logs := logs0,
          err := some { phase := .preconditions, step := precond.name,
                        message := "failed to parse API response", cause := msg } }

/-- `PreconditionExecutor.ExecuteAll`: run the preconditions in declared
order, stopping at the first hard error or the first unmatched one. -/
def preconditionsExecuteAll (client : APICall → APICallOutcome)
    (evalConds : List Condition → List (String × JValue) → Except String ConditionsOutcome)
    (evalCEL : String → List (String × JValue) → Except String CELResult) :
    List Precondition → ExecutionContext →
    PreconditionsOutcome × ExecutionContext × List LogEntry
  | [], ctx => ({ allMatched := true, results := [] }, ctx, [])
  | p :: rest, ctx =>
    let so := executePrecondition client evalConds evalCEL p ctx
    match so.err with
    | some e =>
      ({ allMatched := false, results := [so.result], error := some e }, so.ctx, so.logs)
    | none =>
      if so.result.matched then
        let out := preconditionsExecuteAll client evalConds evalCEL rest so.ctx
        ({ out.1 with results := so.result :: out.1.results }, out.2.1, so.logs ++ out.2.2)
      else
        ({ allMatched := false, results := [so.result],
           notMetReason := "precondition " ++ sq ++ p.name ++ sq ++ " not met: " ++
             formatConditionDetails so.result }, so.ctx, so.logs)

/-! ## Post-action executor (`executor/post_actions.go`) -/

/-- `pae.executeAPICall` for a post action: run the call, record that it
was attempted, capture body and status whenever a response exists (even
on failure), then validate. Returns (result, control error). -/
def postExecuteAPICall (client : APICall → APICallOutcome) (c : APICall)
    (result : PostActionResult) : PostActionResult × Option ExecutorError :=
  let out := ExecuteAPICall client c
  let resp := out.1
  let err := out.2.2
  let result := { result with apiCallMade := true }
  let result :=
    match resp with
    | some r => { result with apiResponse := some r.body, httpStatus := some r.statusCode }
    | none => result
  match ValidateAPIResponse resp err c.method c.url with
  | some ve =>
    let errorContext :=
      match err, resp with
      | none, some r =>
        if r.IsSuccess then "API call failed" else "API call returned non-success status"
      | _, _ => "API call failed"
    ({ result with status := .failed, error := some ve },
     some { phase := .postActions, step := result.name, message := errorContext,
            cause := ve.errMessage })
  | none => (result, none)

/-- `executePostAction`: optional log action, then the optional API
call. Returns (result, logs, control error). -/
def executePostAction (client : APICall → APICallOutcome) (action : PostAction) :
    PostActionResult × List LogEntry × Option ExecutorError :=
  let result : PostActionResult := { name := action.name, status := .success }
  let logs0 : List LogEntry :=
    (LogLevel.info, "Executing post action: " ++ action.name) ::
      (match action.logMessage with
       | some m => [(LogLevel.info, m)]
       | none => [])
  match action.apiCall with
  | none =>
    (result, logs0 ++ [(LogLevel.info, "Post action " ++ sq ++ action.name ++ sq ++ " completed")], none)
  | some c =>
    let out := postExecuteAPICall client c result
    match out.2 with
    | some e => (out.1, logs0, some e)
    | none =>
      (out.1, logs0 ++ [(LogLevel.info, "Post action " ++ sq ++ action.name ++ sq ++ " completed")], none)

/-- The sequential post-action loop of `PostActionExecutor.ExecuteAll`:
stop on the first failure, recording it in `adapter.executionError`. -/
def postActionsLoop (client : APICall → APICallOutcome) :
    List PostAction → ExecutionContext →
    List PostActionResult × ExecutionContext × List LogEntry × Option ExecutorError
  | [], ctx => ([], ctx, [], none)
  | a :: rest, ctx =>
    let step := executePostAction client a
    match step.2.2 with
    | some e =>
      ([step.1],
       ctx.setExecError Phase.postActions.toStr a.name e.errString,
       step.2.1 ++ [(LogLevel.error, "Post action " ++ sq ++ a.name ++ sq ++ " failed: " ++ e.errString)],
       some e)
    | none =>
      let out := postActionsLoop client rest ctx
      (step.1 :: out.1, out.2.1, step.2.1 ++ out.2.2.1, out.2.2.2)

/-- `PostActionExecutor.ExecuteAll`: build the post payloads first (the
payload builder collaborator is a parameter; on failure the phase aborts
with `executionError` recorded), then run the post actions. -/
def postExecuteAll (client : APICall → APICallOutcome)
    (buildPayloads : List Payload → ExecutionContext → Except String ExecutionContext)
    (postConfig : Option PostConfig) (execCtx : ExecutionContext) :
    List PostActionResult × ExecutionContext × List LogEntry × Option ExecutorError :=
  match postConfig with
  | none => ([], execCtx, [], none)
  | some pc =>
    if pc.payloads.isEmpty = false then
      match buildPayloads pc.payloads execCtx with
      | .error e =>
        ([], execCtx.setExecError Phase.postActions.toStr "build_payloads" e, [],
         some { phase := .postActions, step := "build_payloads",
                message := "failed to build post payloads", cause := e })
      | .ok ctx1 => postActionsLoop client pc.postActions ctx1
    else
      postActionsLoop client pc.postActions execCtx

/-- The final result of one event execution. -/
structure ExecutionResult where
  eventID : String := ""
  phase : Option Phase := none
  status : Status := .success
  resourcesSkipped : Bool := false
  skipReason : String := ""
  errorReason : String := ""
  error : Option ExecutorError := none
  params : List (String × JValue) := []
  preconditionResults : List PreconditionResult := []
  resourceResults : Option (List ResourceResult) := none
  postActionResults : Option (List PostActionResult) := none
  executionContext : Option ExecutionContext := none

/-! ## Event interpreter (`executor/executor.go`) -/

/-- The data payload of a CloudEvent, abstracted to its parse outcome:
no bytes, bytes that are not valid JSON, or bytes parsing to a value. -/
inductive EventData where
  | empty
  | invalid
  | json (v : JValue)

/-- A CloudEvent as consumed by the core: id and data payload. -/
structure Event where
  id : String
  data : EventData

/-- `parseEventData`: a nil event or empty body yields an empty map;
a body that does not decode into a JSON object is an error. -/
def parseEventData : Option Event → Except String (List (String × JValue))
  | none => .ok []
  | some e =>
    match e.data with
    | .empty => .ok []
    | .invalid => .error "failed to parse event data as JSON"
    | .json (.obj fields) => .ok fields
    | .json _ => .error "failed to parse event data as JSON"

/-- Modelled from the spec: `NewExecutionContext` builds the per-event
context: empty params, adapter metadata with the event id, the parsed
event payload. -/
def NewExecutionContext (evt : Event) (eventData : List (String × JValue)) :
    ExecutionContext :=
  { params := [], adapter := { eventID := evt.id }, eventData := eventData,
    evaluations := [] }

/-- The external collaborators of the interpreter that live outside the
repository snapshot: the HTTP client, the two `criteria` evaluator
back-ends, parameter extraction (`extractConfigParams` plus
`addMetadataParams`), the resource executor, and the payload builder. -/
structure Collaborators where
  apiClient : APICall → APICallOutcome
  evalConds : List Condition → List (String × JValue) → Except String ConditionsOutcome
  evalCEL : String → List (String × JValue) → Except String CELResult
  paramExtract : ExecutionContext → ExecutionContext × Option ExecutorError
  resourceExec : List Resource → ExecutionContext →
    List ResourceResult × ExecutionContext × Option ExecutorError
  buildPayloads : List Payload → ExecutionContext → Except String ExecutionContext

/-- `Executor.Execute`: validate the event, parse its data, then drive
the four phases — parameter extraction (early return on failure),
preconditions, resources (skipped on precondition non-match or earlier
error), post actions (always run at this point). -/
def Execute (co : Collaborators) (spec : AdapterSpec) (evt : Option Event) :
    ExecutionResult :=
  match evt with
  | none =>
    { status := .failed,
      error := some { phase := .paramExtraction, step := "init",
                      message := "event is required" },
      errorReason := "nil event received" }
  | some e =>
    match parseEventData (some e) with
    | .error msg =>
      { eventID := e.id, status := .failed, phase := some .paramExtraction,
        error := some { phase := .paramExtraction, step := "parse_event",
                        message := "failed to parse event data", cause := msg },
        errorReason := "event data parsing failed" }
    | .ok eventData =>
      let execCtx := NewExecutionContext e eventData
      -- Phase 1: parameter extraction
      let p1 := co.paramExtract execCtx
      match p1.2 with
      | some err =>
        -- finishWithError: early return, later phases never run
        { eventID := e.id, status := .failed, phase := some .paramExtraction,
          error := some err, errorReason := "parameter extraction failed",
          params := p1.1.params, executionContext := some p1.1 }
      | none =>
        -- Phase 2: preconditions
        let p2 := preconditionsExecuteAll co.apiClient co.evalConds co.evalCEL
          spec.preconditions p1.1
        let pOut := p2.1
        let st2 :=
          match pOut.error with
          | some perr =>
            (Status.failed, some perr, "precondition evaluation failed",
             false, "", p2.2.1.setErr "PreconditionFailed" perr.errString)
          | none =>
            if pOut.allMatched then
              (Status.success, (none : Option ExecutorError), "", false, "", p2.2.1)
            else
              (Status.success, none, "", true, pOut.notMetReason,
               p2.2.1.setSkip "PreconditionNotMet" pOut.notMetReason)
        -- Phase 3: resources (skip if preconditions not met or previous error)
        let st3 :=
          if st2.1 = Status.success ∧ st2.2.2.2.1 = false then
            let rr := co.resourceExec spec.resources st2.2.2.2.2.2
            match rr.2.2 with
            | some rerr =>
              (some rr.1, Status.failed, some rerr, "resource execution failed",
               rr.2.1.setErr "ResourceFailed" rerr.errString)
            | none => (some rr.1, st2.1, st2.2.1, st2.2.2.1, rr.2.1)
          else
            ((none : Option (List ResourceResult)), st2.1, st2.2.1, st2.2.2.1, st2.2.2.2.2.2)
        -- Phase 4: post actions (always executed for error reporting)
        let p4 := postExecuteAll co.apiClient co.buildPayloads spec.post st3.2.2.2.2
        let fin :=
          match p4.2.2.2 with
          | some perr => (Status.failed, some perr, "post action execution failed")
          | none => (st3.2.1, st3.2.2.1, st3.2.2.2.1)
        { eventID := e.id, status := fin.1, phase := some .postActions,
          error := fin.2.1, errorReason := fin.2.2,
          params := p4.2.1.params,
          preconditionResults := pOut.results,
          resourcesSkipped := st2.2.2.2.1, skipReason := st2.2.2.2.2.1,
          resourceResults := st3.1,
          postActionResults := some p4.1,
          executionContext := some p4.2.1 }

/-- `Executor.CreateHandler`: the broker handler acknowledges (returns
`none`) successful results and parameter-extraction failures, and
returns the execution error for every other failure. -/
def CreateHandler (co : Collaborators) (spec : AdapterSpec) :
    Option Event → Option ExecutorError :=
  fun evt =>
    let result := Execute co spec evt
    if result.status = Status.failed then
      if result.phase = some Phase.paramExtraction then none
      else result.error
    else none

/-! ## Concrete fixtures used by witnesses and counterexamples -/

/-- A test HTTP collaborator: calls against url "bad" fail at transport
level, url "s500" answers with status 500, everything else returns a
200 with a small JSON object. -/
def exClient : APICall → APICallOutcome := fun c =>
  if c.url = "bad" then .transportError "connection refused"
  else if c.url = "s500" then .response { body := some (.obj []), statusCode := 500 }
  else .response { body := some (.obj [("status", .str "ready"), ("id", .str "c-1")]),
                   statusCode := 200 }

/-- Benign collaborators: trivial evaluators, param extraction and
resource application succeed. -/
def exCo : Collaborators :=
  { apiClient := exClient
    evalConds := fun _ _ => .ok { matched := true, results := [] }
    evalCEL := fun _ _ => .ok { matched := true }
    paramExtract := fun ctx => (ctx, none)
    resourceExec := fun _ ctx => ([{ name := "r1", status := .success }], ctx, none)
    buildPayloads := fun _ ctx => .ok ctx }

/-- A well-formed test event with a JSON object payload. -/
def exEvt : Event := { id := "evt-1", data := .json (.obj [("k", .str "v")]) }

/-- A config whose single precondition calls the failing url and whose
single post action also calls the failing url. -/
def exSpecBad : AdapterSpec :=
  { preconditions := [{ name := "check", apiCall := some { method := "GET", url := "bad" } }],
    resources := [{ name := "r1" }],
    post := some { postActions := [{ name := "report",
                                     apiCall := some { method := "POST", url := "bad" } }] } }

/-- Claim C2: the handler produced by `CreateHandler` returns `none`
(acknowledging) when `Execute` yields a failed result in the
parameter-extraction phase, returns `none` on every successful result
(including the resources-skipped case, which is successful), and
returns the execution error for every other failed result. -/
theorem createHandler_ack_policy (co : Collaborators) (spec : AdapterSpec)
    (evt : Option Event) :
    ((Execute co spec evt).status = Status.failed →
      (Execute co spec evt).phase = some Phase.paramExtraction →
      CreateHandler co spec evt = none)
    ∧ ((Execute co spec evt).status = Status.success →
      CreateHandler co spec evt = none)
    ∧ ((Execute co spec evt).status = Status.failed →
      (Execute co spec evt).phase ≠ some Phase.paramExtraction →
      CreateHandler co spec evt = (Execute co spec evt).error) := by
  unfold CreateHandler
  refine ⟨fun h1 h2 => ?_, fun h1 => ?_, fun h1 h2 => ?_⟩
  · simp [h1, h2]
  · simp [h1]
  · simp [h1, h2]

/-- Witness for C2 at a concrete input: a precondition transport failure
ends in the post-actions phase, so the handler returns the execution
error (here: a non-`none` error). -/
theorem createHandler_ack_policy_witness :
    CreateHandler exCo exSpecBad (some exEvt) = (Execute exCo exSpecBad (some exEvt)).error :=
  (createHandler_ack_policy exCo exSpecBad (some exEvt)).2.2 (by decide) (by decide)

/-- Evaluation with neither structured conditions nor a CEL expression
sets `matched := true` and succeeds. -/
theorem evalPrecondStep_trivial
    (ec : List Condition → List (String × JValue) → Except String ConditionsOutcome)
    (el : String → List (String × JValue) → Except String CELResult)
    (p : Precondition) (r : PreconditionResult) (c : ExecutionContext)
    (ls : List LogEntry) (h1 : p.conditions = []) (h2 : p.expression = "") :
    (evalPrecondStep ec el p r c ls).result = { r with matched := true }
    ∧ (evalPrecondStep ec el p r c ls).err = none
    ∧ (evalPrecondStep ec el p r c ls).ctx = c := by
  unfold evalPrecondStep
  simp [h1, h2]

/-- Projection form of `evalPrecondStep_trivial` for the matched flag. -/
theorem evalPrecondStep_trivial_matched
    (ec : List Condition → List (String × JValue) → Except String ConditionsOutcome)
    (el : String → List (String × JValue) → Except String CELResult)
    (p : Precondition) (r : PreconditionResult) (c : ExecutionContext)
    (ls : List LogEntry) (h1 : p.conditions = []) (h2 : p.expression = "") :
    (evalPrecondStep ec el p r c ls).result.matched = true := by
  rw [(evalPrecondStep_trivial ec el p r c ls h1 h2).1]

/-- Claim C8: a precondition that declares neither structured conditions
nor a CEL expression evaluates to `matched = true` whenever its step
does not hard-fail, and the phase proceeds to the next precondition. -/
theorem no_conditions_trivially_matched (client : APICall → APICallOutcome)
    (ec : List Condition → List (String × JValue) → Except String ConditionsOutcome)
    (el : String → List (String × JValue) → Except String CELResult)
    (p : Precondition) (ctx : ExecutionContext) (rest : List Precondition)
    (h1 : p.conditions = []) (h2 : p.expression = "")
    (h3 : (executePrecondition client ec el p ctx).err = none) :
    (executePrecondition client ec el p ctx).result.matched = true
    ∧ preconditionsExecuteAll client ec el (p :: rest) ctx =
      ({ (preconditionsExecuteAll client ec el rest
            (executePrecondition client ec el p ctx).ctx).1 with
          results := (executePrecondition client ec el p ctx).result ::
            (preconditionsExecuteAll client ec el rest
              (executePrecondition client ec el p ctx).ctx).1.results },
       (preconditionsExecuteAll client ec el rest
         (executePrecondition client ec el p ctx).ctx).2.1,
       (executePrecondition client ec el p ctx).logs ++
         (preconditionsExecuteAll client ec el rest
           (executePrecondition client ec el p ctx).ctx).2.2) := by
  have hm : (executePrecondition client ec el p ctx).result.matched = true := by
    unfold executePrecondition at h3 ⊢
    cases hc : p.apiCall with
    | none =>
      exact evalPrecondStep_trivial_matched ec el p _ ctx _ h1 h2
    | some call =>
      simp only [hc] at h3
      cases hpre : preExecuteAPICall client call with
      | error ve => simp [hpre] at h3
      | ok body =>
        simp only [hpre] at h3 ⊢
        match body with
        | some (.obj d) =>
          exact evalPrecondStep_trivial_matched ec el p _ _ _ h1 h2
        | none => simp at h3
        | some .null => simp at h3
        | some (.bool b) => simp at h3
        | some (.num n) => simp at h3
        | some (.str s) => simp at h3
        | some (.arr xs) => simp at h3
  refine ⟨hm, ?_⟩
  simp only [preconditionsExecuteAll]
  rw [h3, hm]
  simp

/-- Witness for C8: a precondition declaring nothing at all evaluates to
matched. -/
theorem no_conditions_trivially_matched_witness :
    (executePrecondition exClient exCo.evalConds exCo.evalCEL { name := "noop" } {}).result.matched = true :=
  (no_conditions_trivially_matched exClient exCo.evalConds exCo.evalCEL
    { name := "noop" } {} [] rfl rfl rfl).1

/-- Claim C5: with preconditions `[A, B, C]` where `A` comes out matched
and `B` unmatched (both without hard errors), the phase stops at `B`:
exactly the two records for `A` and `B` are produced, `allMatched` is
false, the not-met reason names `B`, and `C` is never evaluated (the
outcome does not depend on `C` at all). -/
theorem precondition_short_circuit (client : APICall → APICallOutcome)
    (ec : List Condition → List (String × JValue) → Except String ConditionsOutcome)
    (el : String → List (String × JValue) → Except String CELResult)
    (A B C : Precondition) (ctx : ExecutionContext)
    (rA rB : PreconditionResult) (ctxA ctxB : ExecutionContext)
    (lgA lgB : List LogEntry)
    (hA : executePrecondition client ec el A ctx = ⟨rA, ctxA, lgA, none⟩)
    (hAm : rA.matched = true)
    (hB : executePrecondition client ec el B ctxA = ⟨rB, ctxB, lgB, none⟩)
    (hBm : rB.matched = false) :
    (preconditionsExecuteAll client ec el [A, B, C] ctx).1.results = [rA, rB]
    ∧ (preconditionsExecuteAll client ec el [A, B, C] ctx).1.allMatched = false
    ∧ (preconditionsExecuteAll client ec el [A, B, C] ctx).1.error = none
    ∧ (preconditionsExecuteAll client ec el [A, B, C] ctx).1.notMetReason =
        "precondition " ++ sq ++ B.name ++ sq ++ " not met: " ++ formatConditionDetails rB
    ∧ ∀ C' : Precondition, preconditionsExecuteAll client ec el [A, B, C'] ctx =
        preconditionsExecuteAll client ec el [A, B, C] ctx := by
  have key : ∀ D : Precondition, preconditionsExecuteAll client ec el [A, B, D] ctx =
      ({ allMatched := false, results := [rA, rB], error := none,
         notMetReason := "precondition " ++ sq ++ B.name ++ sq ++ " not met: " ++
           formatConditionDetails rB }, ctxB, lgA ++ lgB) := by
    intro D
    simp only [preconditionsExecuteAll, hA, hAm, hB, hBm]
    simp
  refine ⟨?_, ?_, ?_, ?_, fun C' => ?_⟩
  · rw [key C]
  · rw [key C]
  · rw [key C]
  · rw [key C]
  · rw [key C', key C]

/-- Fixture for C5's witness: an always-unmatched conditions evaluator. -/
def exCondsFalse : List Condition → List (String × JValue) → Except String ConditionsOutcome :=
  fun _ _ => .ok
    { matched := false
      results := [{ field := "status", operator := "eq", expectedValue := "ready",
                    fieldValue := "pending", matched := false }] }

/-- Witness for C5 at concrete preconditions: a trivially matched `A`,
a condition-bearing `B` judged unmatched, an arbitrary `C`. -/
theorem precondition_short_circuit_witness :
    (preconditionsExecuteAll exClient exCondsFalse exCo.evalCEL
      [{ name := "a" }, { name := "b", conditions := [{ field := "status", operator := "eq", expectedValue := "ready" }] }, { name := "c" }] {}).1.allMatched = false :=
  (precondition_short_circuit exClient exCondsFalse exCo.evalCEL
    { name := "a" }
    { name := "b", conditions := [{ field := "status", operator := "eq", expectedValue := "ready" }] }
    { name := "c" } {} _ _ _ _ _ _ rfl rfl rfl rfl).2.1

/-- A failing capture entry contributes no binding — captured fields and
params come out exactly as if the entry were absent — and only adds its
warn log line. -/
theorem processCaptures_skip (data : List (String × JValue))
    (cp : CaptureSpec) (e : String)
    (hmiss : captureFieldFromData data cp.field = .error e) :
    ∀ (pre post : List CaptureSpec) (captured params : List (String × JValue)),
    (processCaptures data (pre ++ cp :: post) captured params).1 =
      (processCaptures data (pre ++ post) captured params).1
    ∧ (processCaptures data (pre ++ cp :: post) captured params).2.1 =
      (processCaptures data (pre ++ post) captured params).2.1
    ∧ (LogLevel.warn, captureWarnMsg cp e) ∈
      (processCaptures data (pre ++ cp :: post) captured params).2.2 := by
  intro pre
  induction pre with
  | nil =>
    intro post captured params
    simp only [List.nil_append, processCaptures, hmiss]
    simp
  | cons hd tl ih =>
    intro post captured params
    simp only [List.cons_append, processCaptures]
    cases hcap : captureFieldFromData data hd.field with
    | error e2 =>
      refine ⟨(ih post captured params).1, (ih post captured params).2.1, ?_⟩
      exact List.mem_cons_of_mem _ (ih post captured params).2.2
    | ok v =>
      exact ih post (setParam captured hd.name v) (setParam params hd.name v)

/-- Whatever evaluation does, the log lines passed into it survive. -/
theorem evalPrecondStep_logs_mono
    (ec : List Condition → List (String × JValue) → Except String ConditionsOutcome)
    (el : String → List (String × JValue) → Except String CELResult)
    (p : Precondition) (r : PreconditionResult) (c : ExecutionContext)
    (ls : List LogEntry) (x : LogEntry) (hx : x ∈ ls) :
    x ∈ (evalPrecondStep ec el p r c ls).logs := by
  unfold evalPrecondStep
  split
  · split <;> simp [hx]
  · split
    · split <;> simp [hx]
    · simp [hx]

/-- The recorded result, context update and control error of evaluation
do not depend on the log lines accumulated so far. -/
theorem evalPrecondStep_indep_logs
    (ec : List Condition → List (String × JValue) → Except String ConditionsOutcome)
    (el : String → List (String × JValue) → Except String CELResult)
    (p : Precondition) (r : PreconditionResult) (c : ExecutionContext)
    (ls1 ls2 : List LogEntry) :
    (evalPrecondStep ec el p r c ls1).result = (evalPrecondStep ec el p r c ls2).result
    ∧ (evalPrecondStep ec el p r c ls1).ctx = (evalPrecondStep ec el p r c ls2).ctx
    ∧ (evalPrecondStep ec el p r c ls1).err = (evalPrecondStep ec el p r c ls2).err := by
  unfold evalPrecondStep
  split
  · split <;> simp
  · split
    · split <;> simp
    · simp

/-- Claim C7: when a capture entry names a dotted field absent from the
JSON-decoded API response, the step behaves exactly as if the entry were
not declared — the binding appears in neither `capturedFields` nor
`params`, the step and phase control flow are unchanged — and a
warn-level log line records the failure. -/
theorem capture_failure_nonfatal (client : APICall → APICallOutcome)
    (ec : List Condition → List (String × JValue) → Except String ConditionsOutcome)
    (el : String → List (String × JValue) → Except String CELResult)
    (p : Precondition) (ctx : ExecutionContext)
    (call : APICall) (r : APIResponse) (fields : List (String × JValue))
    (pre post : List CaptureSpec) (cp : CaptureSpec) (e : String)
    (hcall : p.apiCall = some call)
    (hresp : client call = .response r)
    (hok : r.IsSuccess = true)
    (hbody : r.body = some (.obj fields))
    (hcap : p.capture = pre ++ cp :: post)
    (hmiss : captureFieldFromData fields cp.field = .error e) :
    (executePrecondition client ec el p ctx).result =
      (executePrecondition client ec el { p with capture := pre ++ post } ctx).result
    ∧ (executePrecondition client ec el p ctx).ctx =
      (executePrecondition client ec el { p with capture := pre ++ post } ctx).ctx
    ∧ (executePrecondition client ec el p ctx).err =
      (executePrecondition client ec el { p with capture := pre ++ post } ctx).err
    ∧ (LogLevel.warn, captureWarnMsg cp e) ∈ (executePrecondition client ec el p ctx).logs := by
  have hpre : preExecuteAPICall client call = .ok r.body := by
    unfold preExecuteAPICall ExecuteAPICall
    rw [hresp]
    simp [ValidateAPIResponse, hok]
  have hskip := processCaptures_skip fields cp e hmiss pre post [] ctx.params
  unfold executePrecondition
  simp only [hcall, hpre, hbody, hcap]
  refine ⟨?_, ?_, ?_, ?_⟩
  · rw [hskip.1, hskip.2.1]
    exact (evalPrecondStep_indep_logs ec el p _ _ _ _).1.trans rfl
  · rw [hskip.1, hskip.2.1]
    exact (evalPrecondStep_indep_logs ec el p _ _ _ _).2.1.trans rfl
  · rw [hskip.1, hskip.2.1]
    exact (evalPrecondStep_indep_logs ec el p _ _ _ _).2.2.trans rfl
  · exact evalPrecondStep_logs_mono ec el p _ _ _ _
      (List.mem_append.mpr (Or.inr hskip.2.2))

/-- Fixture for C7's witness: a precondition capturing a field absent
from the API response. -/
def pC7 : Precondition :=
  { name := "check", apiCall := some { method := "GET", url := "ok" },
    capture := [{ field := "missing", name := "bound" }] }

/-- The capture error text produced for `pC7`. -/
def eC7msg : String :=
  "field " ++ sq ++ "missing" ++ sq ++ " not found at path " ++ sq ++ "missing" ++ sq

/-- Witness for C7: the failed capture of `pC7` logs its warn line while
the step carries on. -/
theorem capture_failure_nonfatal_witness :
    (LogLevel.warn, captureWarnMsg { field := "missing", name := "bound" } eC7msg) ∈
      (executePrecondition exClient exCo.evalConds exCo.evalCEL pC7 {}).logs :=
  (capture_failure_nonfatal exClient exCo.evalConds exCo.evalCEL pC7 {}
    { method := "GET", url := "ok" }
    { body := some (.obj [("status", .str "ready"), ("id", .str "c-1")]), statusCode := 200 }
    [("status", .str "ready"), ("id", .str "c-1")]
    [] [] { field := "missing", name := "bound" } eC7msg
    rfl rfl rfl rfl rfl rfl).2.2.2

/-- Claim C6: when the preconditions phase finishes without a hard error
but not all preconditions matched, no resource step executes (the
resource-result list is never assigned), the result is marked skipped
with the not-met reason, and the post-actions phase still runs. -/
theorem resources_skipped_when_not_matched (co : Collaborators) (spec : AdapterSpec)
    (e : Event) (d : List (String × JValue))
    (hparse : parseEventData (some e) = .ok d)
    (hparam : (co.paramExtract (NewExecutionContext e d)).2 = none)
    (herr : (preconditionsExecuteAll co.apiClient co.evalConds co.evalCEL spec.preconditions
      (co.paramExtract (NewExecutionContext e d)).1).1.error = none)
    (hnm : (preconditionsExecuteAll co.apiClient co.evalConds co.evalCEL spec.preconditions
      (co.paramExtract (NewExecutionContext e d)).1).1.allMatched = false) :
    (Execute co spec (some e)).resourceResults = none
    ∧ (Execute co spec (some e)).resourcesSkipped = true
    ∧ (Execute co spec (some e)).skipReason =
        (preconditionsExecuteAll co.apiClient co.evalConds co.evalCEL spec.preconditions
          (co.paramExtract (NewExecutionContext e d)).1).1.notMetReason
    ∧ (Execute co spec (some e)).postActionResults.isSome = true := by
  unfold Execute
  simp only [hparse, hparam, herr, hnm]
  simp

/-- Collaborators whose conditions evaluator never matches. -/
def exCoNoMatch : Collaborators := { exCo with evalConds := exCondsFalse }

/-- A config with one condition-bearing precondition, a resource, and an
empty post section. -/
def exSpecCond : AdapterSpec :=
  { preconditions :=
      [{ name := "check",
         conditions := [{ field := "status", operator := "eq", expectedValue := "ready" }] }],
    resources := [{ name := "r1" }],
    post := some { postActions := [] } }

/-- Witness for C6: with an unmatched precondition the concrete run
skips resources yet still reaches post actions. -/
theorem resources_skipped_when_not_matched_witness :
    (Execute exCoNoMatch exSpecCond (some exEvt)).resourceResults = none
    ∧ (Execute exCoNoMatch exSpecCond (some exEvt)).postActionResults.isSome = true :=
  ⟨(resources_skipped_when_not_matched exCoNoMatch exSpecCond exEvt
      [("k", JValue.str "v")] rfl rfl rfl rfl).1,
   (resources_skipped_when_not_matched exCoNoMatch exSpecCond exEvt
      [("k", JValue.str "v")] rfl rfl rfl rfl).2.2.2⟩

/-! ## Claim C1: post actions and parameter extraction -/

/-- Collaborators whose parameter extraction fails. -/
def exCoParamFail : Collaborators :=
  { exCo with paramExtract := fun ctx =>
      (ctx, some { phase := .paramExtraction, step := "params", message := "required parameter missing" }) }

/-- Counterexample to C1 as stated: the event payload parses as JSON,
yet parameter extraction fails and the post-action executor is never
invoked — its results are never recorded. -/
theorem postactions_skipped_on_param_failure :
    parseEventData (some exEvt) = .ok [("k", JValue.str "v")]
    ∧ (Execute exCoParamFail exSpecBad (some exEvt)).postActionResults = none :=
  ⟨rfl, rfl⟩

/-- Claim C1 (amended): once parameter extraction has succeeded on a
successfully parsed event, the post-actions phase always executes and
its results are recorded, regardless of precondition or resource
failures. -/
theorem postactions_always_run (co : Collaborators) (spec : AdapterSpec)
    (e : Event) (d : List (String × JValue))
    (hparse : parseEventData (some e) = .ok d)
    (hparam : (co.paramExtract (NewExecutionContext e d)).2 = none) :
    ∃ ctx3 : ExecutionContext, (Execute co spec (some e)).postActionResults =
      some (postExecuteAll co.apiClient co.buildPayloads spec.post ctx3).1 := by
  unfold Execute
  simp only [hparse, hparam]
  exact ⟨_, rfl⟩

/-- Witness for C1's amended theorem: even with a failing precondition
and a failing post action, the post-action phase runs. -/
theorem postactions_always_run_witness :
    ∃ ctx3 : ExecutionContext, (Execute exCo exSpecBad (some exEvt)).postActionResults =
      some (postExecuteAll exCo.apiClient exCo.buildPayloads exSpecBad.post ctx3).1 :=
  postactions_always_run exCo exSpecBad exEvt [("k", JValue.str "v")] rfl rfl

/-! ## Claim C3: executionError and later failures -/

/-- Like `exSpecBad` but with no post section. -/
def exSpecBadNoPost : AdapterSpec := { exSpecBad with post := none }

/-- Counterexample to C3 as stated: in a run whose first failure is a
precondition API-call failure (the precondition result is recorded
failed, and without a post section the recorded `executionError` phase
would be "preconditions"), a later post-action failure overwrites
`adapter.executionError`, so the final record names the post-actions
phase — the first failure does not win. -/
theorem execution_error_overwritten :
    ((Execute exCo exSpecBad (some exEvt)).executionContext.map
      (fun c => c.adapter.executionError.map (fun ee => ee.phase))) = some (some "postActions")
    ∧ (Execute exCo exSpecBad (some exEvt)).preconditionResults.map
        (fun r => r.status) = [Status.failed]
    ∧ ((Execute exCo exSpecBadNoPost (some exEvt)).executionContext.map
        (fun c => c.adapter.executionError.map (fun ee => ee.phase))) = some (some "preconditions") :=
  ⟨rfl, rfl, rfl⟩

/-- Claim C3 (amended): `adapter.executionError` records the most recent
failure — a failing post action sets it to its own `{phase, step,
message}` record no matter what an earlier phase had stored there (the
last failure wins, overwriting any earlier value). -/
theorem execution_error_last_failure_wins (client : APICall → APICallOutcome)
    (bp : List Payload → ExecutionContext → Except String ExecutionContext)
    (pc : PostConfig) (ctx : ExecutionContext) (a : PostAction) (e : ExecutorError)
    (hpl : pc.payloads = [])
    (hact : pc.postActions = [a])
    (hfail : (executePostAction client a).2.2 = some e) :
    (postExecuteAll client bp (some pc) ctx).2.1.adapter.executionError =
      some { phase := Phase.postActions.toStr, step := a.name, message := e.errString } := by
  unfold postExecuteAll
  simp only [hpl, hact, List.isEmpty_nil]
  simp only [postActionsLoop, hfail]
  rfl

/-- An execution context already carrying a preconditions-phase
`executionError`, to exercise the overwrite. -/
def exCtxPreErr : ExecutionContext :=
  { adapter := { executionError := some { phase := "preconditions", step := "check", message := "API call failed" } } }

/-- Witness for C3's amended theorem: a failing post action overwrites
the precondition failure already stored in the context. -/
theorem execution_error_last_failure_wins_witness :
    (postExecuteAll exClient exCo.buildPayloads
      (some { postActions := [{ name := "report", apiCall := some { method := "POST", url := "bad" } }] })
      exCtxPreErr).2.1.adapter.executionError =
    some { phase := Phase.postActions.toStr, step := "report",
           message := ({ phase := Phase.postActions, step := "report",
                         message := "API call failed",
                         cause := (APIError.transport "POST" "bad" "connection refused").errMessage : ExecutorError}).errString } :=
  execution_error_last_failure_wins exClient exCo.buildPayloads
    { postActions := [{ name := "report", apiCall := some { method := "POST", url := "bad" } }] }
    exCtxPreErr
    { name := "report", apiCall := some { method := "POST", url := "bad" } }
    _ rfl rfl rfl

/-! ## Claim C10: post-action response details survive validation failure -/

/-- Claim C10: whenever a post action's API call yields an HTTP response,
the recorded result carries the body in `apiResponse` and the code in
`httpStatus` even when validation fails (non-2xx), with status `failed`
and the validation error attached; and `apiCallMade` is true whenever
the call was attempted, whatever the outcome. -/
theorem postaction_records_response (client : APICall → APICallOutcome)
    (a : PostAction) (c : APICall) (r : APIResponse)
    (hc : a.apiCall = some c)
    (hr : client c = .response r)
    (hfail : r.IsSuccess = false) :
    (executePostAction client a).1.apiCallMade = true
    ∧ (executePostAction client a).1.apiResponse = some r.body
    ∧ (executePostAction client a).1.httpStatus = some r.statusCode
    ∧ (executePostAction client a).1.status = Status.failed
    ∧ (executePostAction client a).1.error = some (.status c.method c.url r.statusCode r.body)
    ∧ (executePostAction client a).2.2 =
        some { phase := Phase.postActions, step := a.name,
               message := "API call returned non-success status",
               cause := (APIError.status c.method c.url r.statusCode r.body).errMessage }
    ∧ ∀ client2 : APICall → APICallOutcome, (executePostAction client2 a).1.apiCallMade = true := by
  have hmain := hfail
  unfold executePostAction postExecuteAPICall ExecuteAPICall
  simp only [hc, hr]
  simp only [ValidateAPIResponse, hfail]
  refine ⟨?_, ?_, ?_, ?_, ?_, ?_, ?_⟩
  · simp
  · simp
  · simp
  · simp
  · simp
  · simp
  · intro client2
    cases hcl : client2 c with
    | transportError m => simp [ValidateAPIResponse]
    | response r2 =>
      simp only [ValidateAPIResponse]
      by_cases h2 : r2.IsSuccess
      · simp [h2]
      · simp [h2]

/-- A post action calling the 500-returning url. -/
def exPost500 : PostAction :=
  { name := "report", apiCall := some { method := "POST", url := "s500" } }

/-- Witness for C10 at the concrete 500 response. -/
theorem postaction_records_response_witness :
    (executePostAction exClient exPost500).1.httpStatus = some 500
    ∧ (executePostAction exClient exPost500).1.status = Status.failed :=
  ⟨(postaction_records_response exClient exPost500 { method := "POST", url := "s500" }
      { body := some (.obj []), statusCode := 500 } rfl rfl rfl).2.2.1,
   (postaction_records_response exClient exPost500 { method := "POST", url := "s500" }
      { body := some (.obj []), statusCode := 500 } rfl rfl rfl).2.2.2.1⟩

/-! ## Claim C4: ManifestWork wrapper construction

The `maestro_client.buildManifestWork` source is not part of the
snapshot (only its tests are), so the builder is modelled from the
specification (§4.8 step 3). -/

/-- Modelled from the spec: a ManifestWork wrapper — metadata (name,
labels, annotations), the target namespace, and the embedded workload
manifests. The namespace field is spelled `nspace` because `namespace`
is reserved in Lean. -/
structure ManifestWork where
  name : String
  nspace : String
  labels : List (String × String)
  annotations : List (String × String)
  manifests : List JValue

/-- Modelled from the spec: one resources-to-apply entry handed to the
transport client; its manifest may be nil. -/
structure ResourceToApply where
  name : String
  manifest : Option JValue

/-- Modelled from the spec: `buildManifestWork` deep-copies the
template, preserves the wrapper metadata verbatim, sets the namespace to
the consumer id supplied at call time, and replaces the embedded
workload manifests by the callers' concrete manifests (nil entries
skipped) whenever at least one concrete manifest is supplied; otherwise
the template's embedded manifests are used as-is. -/
def buildManifestWork (template : ManifestWork) (resources : List ResourceToApply)
    (consumerID : String) : ManifestWork :=
  let explicit := resources.filterMap (fun r => r.manifest)
  { name := template.name
    nspace := consumerID
    labels := template.labels
    annotations := template.annotations
    manifests := if explicit.isEmpty then template.manifests else explicit }

/-- Claim C4: the wrapper's namespace is the consumer id; its name,
labels and annotations are the template's; its workload manifests are
the non-nil caller manifests in order when at least one exists, and the
template's embedded manifests otherwise. -/
theorem buildManifestWork_policy (template : ManifestWork)
    (resources : List ResourceToApply) (consumerID : String) :
    (buildManifestWork template resources consumerID).nspace = consumerID
    ∧ (buildManifestWork template resources consumerID).name = template.name
    ∧ (buildManifestWork template resources consumerID).labels = template.labels
    ∧ (buildManifestWork template resources consumerID).annotations = template.annotations
    ∧ (resources.filterMap (fun r => r.manifest) = [] →
        (buildManifestWork template resources consumerID).manifests = template.manifests)
    ∧ (resources.filterMap (fun r => r.manifest) ≠ [] →
        (buildManifestWork template resources consumerID).manifests =
          resources.filterMap (fun r => r.manifest)) := by
  refine ⟨rfl, rfl, rfl, rfl, fun hempty => ?_, fun hne => ?_⟩
  · simp [buildManifestWork, hempty]
  · simp [buildManifestWork, List.isEmpty_iff, hne]

/-- A template fixture for C4's witness. -/
def exMWTemplate : ManifestWork :=
  { name := "test-mw", nspace := "", labels := [("test", "true")],
    annotations := [("gen", "1")],
    manifests := [JValue.obj [("kind", JValue.str "Namespace")]] }

/-- Resource fixtures for C4's witness: one nil entry, one concrete. -/
def exMWResources : List ResourceToApply :=
  [{ name := "skipped", manifest := none },
   { name := "cm", manifest := some (JValue.obj [("kind", JValue.str "ConfigMap")]) }]

/-- Witness for C4: mixed nil and concrete entries — the wrapper keeps
only the concrete manifest and takes the consumer id as namespace. -/
theorem buildManifestWork_policy_witness :
    (buildManifestWork exMWTemplate exMWResources "consumer-1").manifests =
      [JValue.obj [("kind", JValue.str "ConfigMap")]]
    ∧ (buildManifestWork exMWTemplate exMWResources "consumer-1").nspace = "consumer-1" :=
  ⟨(buildManifestWork_policy exMWTemplate exMWResources "consumer-1").2.2.2.2.2
      (fun h => List.noConfusion h),
   (buildManifestWork_policy exMWTemplate exMWResources "consumer-1").1⟩

/-! ## Claim C9: deep copy is isolating

The `deepCopyMap` source is not part of the snapshot (only its tests
are), so the copier is modelled from the specification (§4.3) over an
explicit heap: Go maps and slices are heap nodes addressed by `ref`
pointers, and mutation is a store update. `readVal` reads the value
tree a reference denotes (with fuel, since the heap is untyped);
a successful read with fuel `n` is exactly the spec's "map/slice tree
of depth ≤ n". -/

/-- A heap value: a scalar, or a reference to a map/slice node. -/
inductive HVal where
  | hnull
  | hbool (b : Bool)
  | hnum (n : Int)
  | hstr (s : String)
  | ref (a : Nat)
deriving DecidableEq, Repr

/-- A heap node: a map with string keys or a slice. -/
inductive HNode where
  | mapN (fields : List (String × HVal))
  | sliceN (elems : List HVal)
deriving DecidableEq, Repr

/-- The heap: nodes addressed by their list index. -/
abbrev Store := List HNode

mutual

/-- Read the JSON tree denoted by a heap value, with fuel bounding the
depth of reference chains. -/
def readVal : Nat → Store → HVal → Option JValue
  | _, _, .hnull => some .null
  | _, _, .hbool b => some (.bool b)
  | _, _, .hnum m => some (.num m)
  | _, _, .hstr s => some (.str s)
  | 0, _, .ref _ => none
  | n+1, σ, .ref a =>
    match σ[a]? with
    | some (.mapN fs) => (readFields n σ fs).map JValue.obj
    | some (.sliceN es) => (readElems n σ es).map JValue.arr
    | none => none

/-- Read the field list of a map node. -/
def readFields : Nat → Store → List (String × HVal) → Option (List (String × JValue))
  | _, _, [] => some []
  | n, σ, kv :: rest =>
    match readVal n σ kv.2, readFields n σ rest with
    | some j, some js => some ((kv.1, j) :: js)
    | _, _ => none

/-- Read the element list of a slice node. -/
def readElems : Nat → Store → List HVal → Option (List JValue)
  | _, _, [] => some []
  | n, σ, v :: rest =>
    match readVal n σ v, readElems n σ rest with
    | some j, some js => some (j :: js)
    | _, _ => none

end

/-- Transfer of field reads between stores, given transfer of value
reads at the same fuel. -/
theorem readFields_agree_of (m : Nat) (σ σ' : Store)
    (hV : ∀ (v : HVal) (j : JValue), readVal m σ v = some j → readVal m σ' v = some j) :
    ∀ (fs : List (String × HVal)) (js : List (String × JValue)),
      readFields m σ fs = some js → readFields m σ' fs = some js := by
  intro fs
  induction fs with
  | nil => intro js hfs; simpa [readFields] using hfs
  | cons kv rest ih =>
    intro js hfs
    rw [readFields] at hfs ⊢
    cases hv : readVal m σ kv.2 with
    | none => rw [hv] at hfs; simp at hfs
    | some j1 =>
      rw [hv] at hfs
      cases hrest : readFields m σ rest with
      | none => rw [hrest] at hfs; simp at hfs
      | some js1 =>
        rw [hrest] at hfs
        rw [hV kv.2 j1 hv, ih js1 hrest]
        exact hfs

/-- Transfer of element reads between stores, given transfer of value
reads at the same fuel. -/
theorem readElems_agree_of (m : Nat) (σ σ' : Store)
    (hV : ∀ (v : HVal) (j : JValue), readVal m σ v = some j → readVal m σ' v = some j) :
    ∀ (es : List HVal) (js : List JValue),
      readElems m σ es = some js → readElems m σ' es = some js := by
  intro es
  induction es with
  | nil => intro js hes; simpa [readElems] using hes
  | cons v rest ih =>
    intro js hes
    rw [readElems] at hes ⊢
    cases hv : readVal m σ v with
    | none => rw [hv] at hes; simp at hes
    | some j1 =>
      rw [hv] at hes
      cases hrest : readElems m σ rest with
      | none => rw [hrest] at hes; simp at hes
      | some js1 =>
        rw [hrest] at hes
        rw [hV v j1 hv, ih js1 hrest]
        exact hes

/-- Reading only touches addresses the base store resolves, so any store
agreeing on them yields the same tree. -/
theorem readVal_agree (σ σ' : Store)
    (hag : ∀ b, b < σ.length → σ'[b]? = σ[b]?) :
    ∀ (n : Nat) (v : HVal) (j : JValue), readVal n σ v = some j → readVal n σ' v = some j := by
  intro n
  induction n with
  | zero =>
    intro v j hv
    cases v <;> simp_all [readVal]
  | succ n ihn =>
    intro v j hv
    cases v with
    | ref a =>
      rw [readVal] at hv ⊢
      cases hnd : σ[a]? with
      | none => rw [hnd] at hv; simp at hv
      | some nd =>
        have hb : a < σ.length := by
          by_contra hge
          rw [List.getElem?_eq_none (Nat.le_of_not_lt hge)] at hnd
          exact Option.noConfusion hnd
        cases nd with
        | mapN fs =>
          simp only [hnd] at hv
          rw [hag a hb]
          simp only [hnd]
          cases hfs : readFields n σ fs with
          | none => rw [hfs] at hv; simp at hv
          | some js1 => rw [hfs] at hv; rw [readFields_agree_of n σ σ' ihn fs js1 hfs]; exact hv
        | sliceN es =>
          simp only [hnd] at hv
          rw [hag a hb]
          simp only [hnd]
          cases hes : readElems n σ es with
          | none => rw [hes] at hv; simp at hv
          | some js1 => rw [hes] at hv; rw [readElems_agree_of n σ σ' ihn es js1 hes]; exact hv
    | hnull => simpa [readVal] using hv
    | hbool b => simpa [readVal] using hv
    | hnum m => simpa [readVal] using hv
    | hstr s => simpa [readVal] using hv

/-- A resolved address lies inside the store. -/
theorem getElem?_some_lt {σ : Store} {b : Nat} {nd : HNode} (h : σ[b]? = some nd) :
    b < σ.length := by
  by_contra hge
  rw [List.getElem?_eq_none (Nat.le_of_not_lt hge)] at h
  exact Option.noConfusion h

/-- Appending to the store preserves every readable tree. -/
theorem readVal_extend (σ τ : Store) :
    ∀ (n : Nat) (v : HVal) (j : JValue), readVal n σ v = some j → readVal n (σ ++ τ) v = some j :=
  readVal_agree σ (σ ++ τ) (fun b hb => List.getElem?_append_left hb)

/-- Appending to the store preserves readable field lists. -/
theorem readFields_extend (σ τ : Store) (n : Nat) :
    ∀ (fs : List (String × HVal)) (js : List (String × JValue)),
      readFields n σ fs = some js → readFields n (σ ++ τ) fs = some js :=
  readFields_agree_of n σ (σ ++ τ) (readVal_extend σ τ n)

/-- Appending to the store preserves readable element lists. -/
theorem readElems_extend (σ τ : Store) (n : Nat) :
    ∀ (es : List HVal) (js : List JValue),
      readElems n σ es = some js → readElems n (σ ++ τ) es = some js :=
  readElems_agree_of n σ (σ ++ τ) (readVal_extend σ τ n)

mutual

/-- Modelled from the spec: the value half of the deep copier — scalars
are reproduced by value, every map/slice node is re-allocated at a fresh
address at the end of the store. The fuel bounds the copied depth
(a read that succeeds with the same fuel never exhausts it). -/
def copyVal : Nat → Store → HVal → Store × HVal
  | _, σ, .hnull => (σ, .hnull)
  | _, σ, .hbool b => (σ, .hbool b)
  | _, σ, .hnum m => (σ, .hnum m)
  | _, σ, .hstr s => (σ, .hstr s)
  | 0, σ, .ref a => (σ, .ref a)
  | n+1, σ, .ref a =>
    match σ[a]? with
    | some (.mapN fs) =>
      let out := copyFields n σ fs
      (out.1 ++ [HNode.mapN out.2], .ref out.1.length)
    | some (.sliceN es) =>
      let out := copyElems n σ es
      (out.1 ++ [HNode.sliceN out.2], .ref out.1.length)
    | none => (σ, .ref a)

/-- Copy the fields of a map node, threading the store. -/
def copyFields : Nat → Store → List (String × HVal) → Store × List (String × HVal)
  | _, σ, [] => (σ, [])
  | n, σ, kv :: rest =>
    let o1 := copyVal n σ kv.2
    let o2 := copyFields n o1.1 rest
    (o2.1, (kv.1, o1.2) :: o2.2)

/-- Copy the elements of a slice node, threading the store. -/
def copyElems : Nat → Store → List HVal → Store × List HVal
  | _, σ, [] => (σ, [])
  | n, σ, v :: rest =>
    let o1 := copyVal n σ v
    let o2 := copyElems n o1.1 rest
    (o2.1, o1.2 :: o2.2)

end

/-- A heap value whose reference (if any) points at or above `k`. -/
def refGE (k : Nat) : HVal → Prop
  | .ref a => k ≤ a
  | _ => True

/-- A node all of whose references point at or above `k`. -/
def NodeRefsGE (k : Nat) : HNode → Prop
  | .mapN fs => ∀ kv ∈ fs, refGE k kv.2
  | .sliceN es => ∀ v ∈ es, refGE k v

/-- All nodes stored at or above `k` only reference addresses at or
above `k` — the fresh tail of the store is self-contained. -/
def StoreHighOK (k : Nat) (σ : Store) : Prop :=
  ∀ b (nd : HNode), k ≤ b → σ[b]? = some nd → NodeRefsGE k nd

/-- `refGE` is antitone in the bound. -/
theorem refGE_mono {k k' : Nat} (hk : k ≤ k') {v : HVal} (h : refGE k' v) : refGE k v := by
  cases v <;> simp_all [refGE]
  omega

/-- `NodeRefsGE` is antitone in the bound. -/
theorem NodeRefsGE_mono {k k' : Nat} (hk : k ≤ k') {nd : HNode} (h : NodeRefsGE k' nd) :
    NodeRefsGE k nd := by
  cases nd with
  | mapN fs => exact fun kv hkv => refGE_mono hk (h kv hkv)
  | sliceN es => exact fun v hv => refGE_mono hk (h v hv)

/-- A store is vacuously self-contained above its own length. -/
theorem StoreHighOK_self (σ : Store) : StoreHighOK σ.length σ :=
  fun b nd hb hnd => absurd (getElem?_some_lt hnd) (Nat.not_lt.mpr hb)

/-- Appending a node whose references respect the bound preserves
store self-containment. -/
theorem StoreHighOK_append {k : Nat} {σ₁ : Store} {node : HNode}
    (h1 : StoreHighOK k σ₁) (hnode : NodeRefsGE k node) :
    StoreHighOK k (σ₁ ++ [node]) := by
  intro b nd hb hnd
  rcases Nat.lt_or_ge b σ₁.length with hlt | hge
  · rw [List.getElem?_append_left hlt] at hnd
    exact h1 b nd hb hnd
  · rcases Nat.eq_or_lt_of_le hge with heq | hgt
    · rw [← heq, List.getElem?_concat_length] at hnd
      cases hnd
      exact hnode
    · have : σ₁.length + 1 ≤ b := hgt
      rw [List.getElem?_eq_none (by simpa using this)] at hnd
      exact Option.noConfusion hnd

/-- Stepping through an extension that is self-contained above the
intermediate length preserves self-containment above `k`. -/
theorem StoreHighOK_step {k : Nat} {σ₁ σ₂ : Store} (hlen : k ≤ σ₁.length)
    (hpre : ∀ b, b < σ₁.length → σ₂[b]? = σ₁[b]?)
    (h1 : StoreHighOK k σ₁) (h2 : StoreHighOK σ₁.length σ₂) : StoreHighOK k σ₂ := by
  intro b nd hb hnd
  rcases Nat.lt_or_ge b σ₁.length with hlt | hge
  · rw [hpre b hlt] at hnd
    exact h1 b nd hb hnd
  · exact NodeRefsGE_mono hlen (h2 b nd hge hnd)

/-- The conclusions of copier correctness for one heap value. -/
def CopyValOK (n : Nat) (σ : Store) (v : HVal) (j : JValue) : Prop :=
  (∃ τ, (copyVal n σ v).1 = σ ++ τ)
  ∧ readVal n (copyVal n σ v).1 (copyVal n σ v).2 = some j
  ∧ refGE σ.length (copyVal n σ v).2
  ∧ StoreHighOK σ.length (copyVal n σ v).1

/-- Copier correctness for field lists, given copier correctness for
values at the same fuel. -/
theorem copyFields_correct_of (n : Nat)
    (hV : ∀ (σ : Store) (v : HVal) (j : JValue), readVal n σ v = some j → CopyValOK n σ v j) :
    ∀ (fs : List (String × HVal)) (σ : Store) (js : List (String × JValue)),
      readFields n σ fs = some js →
      (∃ τ, (copyFields n σ fs).1 = σ ++ τ)
      ∧ readFields n (copyFields n σ fs).1 (copyFields n σ fs).2 = some js
      ∧ (∀ kv ∈ (copyFields n σ fs).2, refGE σ.length kv.2)
      ∧ StoreHighOK σ.length (copyFields n σ fs).1 := by
  intro fs
  induction fs with
  | nil =>
    intro σ js h
    rw [readFields] at h
    cases h
    refine ⟨⟨[], by simp [copyFields]⟩, by simp [copyFields, readFields], ?_, ?_⟩
    · simp [copyFields]
    · simpa [copyFields] using StoreHighOK_self σ
  | cons kv rest ih =>
    intro σ js h
    rw [readFields] at h
    cases hv : readVal n σ kv.2 with
    | none => rw [hv] at h; simp at h
    | some j1 =>
      rw [hv] at h
      cases hrest : readFields n σ rest with
      | none => rw [hrest] at h; simp at h
      | some js1 =>
        rw [hrest] at h
        cases h
        obtain ⟨⟨τ₁, hext1⟩, hread1, href1, hhigh1⟩ := hV σ kv.2 j1 hv
        have hlen1 : σ.length ≤ (copyVal n σ kv.2).1.length := by
          rw [hext1]; simp
        have hrest' : readFields n (copyVal n σ kv.2).1 rest = some js1 := by
          rw [hext1]
          exact readFields_extend σ τ₁ n rest js1 hrest
        obtain ⟨⟨τ₂, hext2⟩, hread2, href2, hhigh2⟩ := ih (copyVal n σ kv.2).1 js1 hrest'
        have hpre2 : ∀ b, b < (copyVal n σ kv.2).1.length →
            (copyFields n (copyVal n σ kv.2).1 rest).1[b]? = (copyVal n σ kv.2).1[b]? := by
          intro b hb
          rw [hext2]
          exact List.getElem?_append_left hb
        refine ⟨?_, ?_, ?_, ?_⟩
        · refine ⟨τ₁ ++ τ₂, ?_⟩
          rw [copyFields]
          simp only []
          rw [hext2, hext1, List.append_assoc]
        · rw [copyFields, readFields]
          simp only []
          have hv2 : readVal n (copyFields n (copyVal n σ kv.2).1 rest).1 (copyVal n σ kv.2).2 = some j1 := by
            rw [hext2]
            exact readVal_extend (copyVal n σ kv.2).1 τ₂ n (copyVal n σ kv.2).2 j1 hread1
          rw [hv2, hread2]
        · rw [copyFields]
          simp only []
          intro kv2 hkv2
          rcases List.mem_cons.mp hkv2 with heq | hmem
          · subst heq
            exact href1
          · exact refGE_mono (by rw [hext1]; simp) (href2 kv2 hmem)
        · rw [copyFields]
          simp only []
          exact StoreHighOK_step hlen1 hpre2 hhigh1 hhigh2

/-- Copier correctness for element lists, given copier correctness for
values at the same fuel. -/
theorem copyElems_correct_of (n : Nat)
    (hV : ∀ (σ : Store) (v : HVal) (j : JValue), readVal n σ v = some j → CopyValOK n σ v j) :
    ∀ (es : List HVal) (σ : Store) (js : List JValue),
      readElems n σ es = some js →
      (∃ τ, (copyElems n σ es).1 = σ ++ τ)
      ∧ readElems n (copyElems n σ es).1 (copyElems n σ es).2 = some js
      ∧ (∀ v ∈ (copyElems n σ es).2, refGE σ.length v)
      ∧ StoreHighOK σ.length (copyElems n σ es).1 := by
  intro es
  induction es with
  | nil =>
    intro σ js h
    rw [readElems] at h
    cases h
    refine ⟨⟨[], by simp [copyElems]⟩, by simp [copyElems, readElems], ?_, ?_⟩
    · simp [copyElems]
    · simpa [copyElems] using StoreHighOK_self σ
  | cons v rest ih =>
    intro σ js h
    rw [readElems] at h
    cases hv : readVal n σ v with
    | none => rw [hv] at h; simp at h
    | some j1 =>
      rw [hv] at h
      cases hrest : readElems n σ rest with
      | none => rw [hrest] at h; simp at h
      | some js1 =>
        rw [hrest] at h
        cases h
        obtain ⟨⟨τ₁, hext1⟩, hread1, href1, hhigh1⟩ := hV σ v j1 hv
        have hlen1 : σ.length ≤ (copyVal n σ v).1.length := by
          rw [hext1]; simp
        have hrest' : readElems n (copyVal n σ v).1 rest = some js1 := by
          rw [hext1]
          exact readElems_extend σ τ₁ n rest js1 hrest
        obtain ⟨⟨τ₂, hext2⟩, hread2, href2, hhigh2⟩ := ih (copyVal n σ v).1 js1 hrest'
        have hpre2 : ∀ b, b < (copyVal n σ v).1.length →
            (copyElems n (copyVal n σ v).1 rest).1[b]? = (copyVal n σ v).1[b]? := by
          intro b hb
          rw [hext2]
          exact List.getElem?_append_left hb
        refine ⟨?_, ?_, ?_, ?_⟩
        · refine ⟨τ₁ ++ τ₂, ?_⟩
          rw [copyElems]
          simp only []
          rw [hext2, hext1, List.append_assoc]
        · rw [copyElems, readElems]
          simp only []
          have hv2 : readVal n (copyElems n (copyVal n σ v).1 rest).1 (copyVal n σ v).2 = some j1 := by
            rw [hext2]
            exact readVal_extend (copyVal n σ v).1 τ₂ n (copyVal n σ v).2 j1 hread1
          rw [hv2, hread2]
        · rw [copyElems]
          simp only []
          intro v2 hv2
          rcases List.mem_cons.mp hv2 with heq | hmem
          · subst heq
            exact href1
          · exact refGE_mono (by rw [hext1]; simp) (href2 v2 hmem)
        · rw [copyElems]
          simp only []
          exact StoreHighOK_step hlen1 hpre2 hhigh1 hhigh2

/-- Correctness of the deep copier on every readable tree: the copy only
appends to the store, reads back to the same tree, is rooted in the
fresh tail, and the fresh tail only references itself. -/
theorem copyVal_correct : ∀ (n : Nat) (σ : Store) (v : HVal) (j : JValue),
    readVal n σ v = some j → CopyValOK n σ v j := by
  intro n
  induction n with
  | zero =>
    intro σ v j hv
    cases v with
    | ref a => simp [readVal] at hv
    | hnull =>
      exact ⟨⟨[], by simp [copyVal]⟩, by simpa [copyVal] using hv, by simp [copyVal, refGE],
        by simpa [copyVal] using StoreHighOK_self σ⟩
    | hbool b =>
      exact ⟨⟨[], by simp [copyVal]⟩, by simpa [copyVal] using hv, by simp [copyVal, refGE],
        by simpa [copyVal] using StoreHighOK_self σ⟩
    | hnum m =>
      exact ⟨⟨[], by simp [copyVal]⟩, by simpa [copyVal] using hv, by simp [copyVal, refGE],
        by simpa [copyVal] using StoreHighOK_self σ⟩
    | hstr s =>
      exact ⟨⟨[], by simp [copyVal]⟩, by simpa [copyVal] using hv, by simp [copyVal, refGE],
        by simpa [copyVal] using StoreHighOK_self σ⟩
  | succ n ihn =>
    intro σ v j hv
    cases v with
    | hnull =>
      exact ⟨⟨[], by simp [copyVal]⟩, by simpa [copyVal] using hv, by simp [copyVal, refGE],
        by simpa [copyVal] using StoreHighOK_self σ⟩
    | hbool b =>
      exact ⟨⟨[], by simp [copyVal]⟩, by simpa [copyVal] using hv, by simp [copyVal, refGE],
        by simpa [copyVal] using StoreHighOK_self σ⟩
    | hnum m =>
      exact ⟨⟨[], by simp [copyVal]⟩, by simpa [copyVal] using hv, by simp [copyVal, refGE],
        by simpa [copyVal] using StoreHighOK_self σ⟩
    | hstr s =>
      exact ⟨⟨[], by simp [copyVal]⟩, by simpa [copyVal] using hv, by simp [copyVal, refGE],
        by simpa [copyVal] using StoreHighOK_self σ⟩
    | ref a =>
      rw [readVal] at hv
      cases hnd : σ[a]? with
      | none => rw [hnd] at hv; simp at hv
      | some nd =>
        cases nd with
        | mapN fs =>
          simp only [hnd] at hv
          cases hfs : readFields n σ fs with
          | none => rw [hfs] at hv; simp at hv
          | some js =>
            rw [hfs] at hv
            simp only [Option.map_some'] at hv
            cases hv
            obtain ⟨⟨τ₁, hext⟩, hread, hrefs, hhigh⟩ := copyFields_correct_of n ihn fs σ js hfs
            have hlen : σ.length ≤ (copyFields n σ fs).1.length := by
              rw [hext]; simp
            unfold CopyValOK
            rw [copyVal]
            simp only [hnd]
            refine ⟨⟨τ₁ ++ [HNode.mapN (copyFields n σ fs).2], by rw [hext, List.append_assoc]⟩, ?_, ?_, ?_⟩
            · rw [readVal]
              rw [List.getElem?_concat_length]
              simp only []
              rw [readFields_extend (copyFields n σ fs).1 [HNode.mapN (copyFields n σ fs).2] n
                (copyFields n σ fs).2 js hread]
              rfl
            · exact hlen
            · exact StoreHighOK_append hhigh hrefs
        | sliceN es =>
          simp only [hnd] at hv
          cases hes : readElems n σ es with
          | none => rw [hes] at hv; simp at hv
          | some js =>
            rw [hes] at hv
            simp only [Option.map_some'] at hv
            cases hv
            obtain ⟨⟨τ₁, hext⟩, hread, hrefs, hhigh⟩ := copyElems_correct_of n ihn es σ js hes
            have hlen : σ.length ≤ (copyElems n σ es).1.length := by
              rw [hext]; simp
            unfold CopyValOK
            rw [copyVal]
            simp only [hnd]
            refine ⟨⟨τ₁ ++ [HNode.sliceN (copyElems n σ es).2], by rw [hext, List.append_assoc]⟩, ?_, ?_, ?_⟩
            · rw [readVal]
              rw [List.getElem?_concat_length]
              simp only []
              rw [readElems_extend (copyElems n σ es).1 [HNode.sliceN (copyElems n σ es).2] n
                (copyElems n σ es).2 js hread]
              rfl
            · exact hlen
            · exact StoreHighOK_append hhigh hrefs

/-! ### The resource render step over the heap -/

/-- Modelled from the spec: render a string leaf in place; non-strings
(and references) are untouched. -/
def renderLeaf (rf : String → String) : HVal → HVal
  | .hstr s => .hstr (rf s)
  | v => v

/-- The child references of a map node's fields. -/
def childRefsF (fs : List (String × HVal)) : List Nat :=
  fs.filterMap (fun kv => match kv.2 with | .ref b => some b | _ => none)

/-- The child references of a slice node's elements. -/
def childRefsE (es : List HVal) : List Nat :=
  es.filterMap (fun v => match v with | .ref b => some b | _ => none)

mutual

/-- Modelled from the spec: render all string leaves (keys and values)
of the tree rooted at an address, mutating the nodes in place. -/
def renderAddr (rf : String → String) : Nat → Store → Nat → Store
  | 0, σ, _ => σ
  | n+1, σ, a =>
    match σ[a]? with
    | some (.mapN fs) =>
      renderChildren rf n
        (σ.set a (.mapN (fs.map (fun kv => (rf kv.1, renderLeaf rf kv.2)))))
        (childRefsF fs)
    | some (.sliceN es) =>
      renderChildren rf n (σ.set a (.sliceN (es.map (renderLeaf rf)))) (childRefsE es)
    | none => σ

/-- Render each child address in turn. -/
def renderChildren (rf : String → String) : Nat → Store → List Nat → Store
  | _, σ, [] => σ
  | n, σ, a :: rest => renderChildren rf n (renderAddr rf n σ a) rest

end

/-- Rendering a leaf does not change which address it references. -/
theorem refGE_renderLeaf (rf : String → String) (k : Nat) (v : HVal)
    (h : refGE k v) : refGE k (renderLeaf rf v) := by
  cases v <;> simpa [renderLeaf, refGE] using h

/-- Frame property of the render step: rendering a tree rooted at or
above `k` in a store that is self-contained above `k` never touches the
cells below `k`, and preserves self-containment. -/
theorem renderFrame (rf : String → String) (k : Nat) : ∀ n : Nat,
    (∀ (σ : Store) (a : Nat), StoreHighOK k σ → k ≤ a →
      (∀ b, b < k → (renderAddr rf n σ a)[b]? = σ[b]?)
      ∧ StoreHighOK k (renderAddr rf n σ a))
    ∧ (∀ (σ : Store) (addrs : List Nat), StoreHighOK k σ → (∀ a ∈ addrs, k ≤ a) →
      (∀ b, b < k → (renderChildren rf n σ addrs)[b]? = σ[b]?)
      ∧ StoreHighOK k (renderChildren rf n σ addrs)) := by
  intro n
  induction n with
  | zero =>
    constructor
    · intro σ a hσ ha
      rw [renderAddr]
      exact ⟨fun b hb => rfl, hσ⟩
    · intro σ addrs
      induction addrs generalizing σ with
      | nil =>
        intro hσ has
        rw [renderChildren]
        exact ⟨fun b hb => rfl, hσ⟩
      | cons a rest ih =>
        intro hσ has
        rw [renderChildren, renderAddr]
        exact ih σ hσ (fun x hx => has x (List.mem_cons_of_mem a hx))
  | succ n ihn =>
    have hA : ∀ (σ : Store) (a : Nat), StoreHighOK k σ → k ≤ a →
        (∀ b, b < k → (renderAddr rf (n+1) σ a)[b]? = σ[b]?)
        ∧ StoreHighOK k (renderAddr rf (n+1) σ a) := by
      intro σ a hσ ha
      rw [renderAddr]
      cases hnd : σ[a]? with
      | none =>
        exact ⟨fun b hb => rfl, hσ⟩
      | some nd =>
        cases nd with
        | mapN fs =>
          simp only []
          have hrefs : NodeRefsGE k (HNode.mapN fs) := hσ a (HNode.mapN fs) ha hnd
          have hσ' : StoreHighOK k
              (σ.set a (.mapN (fs.map (fun kv => (rf kv.1, renderLeaf rf kv.2))))) := by
            intro b nd2 hb hnd2
            by_cases hba : b = a
            · subst hba
              rw [List.getElem?_set_eq (by simpa using getElem?_some_lt hnd)] at hnd2
              cases hnd2
              intro kv2 hkv2
              rcases List.mem_map.mp hkv2 with ⟨kv, hkv, hkveq⟩
              subst hkveq
              exact refGE_renderLeaf rf k kv.2 (hrefs kv hkv)
            · rw [List.getElem?_set_ne (fun h => hba h.symm)] at hnd2
              exact hσ b nd2 hb hnd2
          have hch : ∀ c ∈ childRefsF fs, k ≤ c := by
            intro c hc
            rcases List.mem_filterMap.mp hc with ⟨kv, hkv, hkveq⟩
            have := hrefs kv hkv
            cases hv2 : kv.2 with
            | ref b2 => rw [hv2] at hkveq; cases hkveq; rw [hv2] at this; exact this
            | hnull => rw [hv2] at hkveq; exact Option.noConfusion hkveq
            | hbool b2 => rw [hv2] at hkveq; exact Option.noConfusion hkveq
            | hnum m2 => rw [hv2] at hkveq; exact Option.noConfusion hkveq
            | hstr s2 => rw [hv2] at hkveq; exact Option.noConfusion hkveq
          obtain ⟨hag2, hok2⟩ := (ihn.2) _ (childRefsF fs) hσ' hch
          refine ⟨?_, hok2⟩
          intro b hb
          rw [hag2 b hb]
          exact List.getElem?_set_ne (fun h => absurd ha (by omega))
        | sliceN es =>
          simp only []
          have hrefs : NodeRefsGE k (HNode.sliceN es) := hσ a (HNode.sliceN es) ha hnd
          have hσ' : StoreHighOK k (σ.set a (.sliceN (es.map (renderLeaf rf)))) := by
            intro b nd2 hb hnd2
            by_cases hba : b = a
            · subst hba
              rw [List.getElem?_set_eq (by simpa using getElem?_some_lt hnd)] at hnd2
              cases hnd2
              intro v2 hv2
              rcases List.mem_map.mp hv2 with ⟨v, hv, hveq⟩
              subst hveq
              exact refGE_renderLeaf rf k v (hrefs v hv)
            · rw [List.getElem?_set_ne (fun h => hba h.symm)] at hnd2
              exact hσ b nd2 hb hnd2
          have hch : ∀ c ∈ childRefsE es, k ≤ c := by
            intro c hc
            rcases List.mem_filterMap.mp hc with ⟨v, hv, hveq⟩
            have := hrefs v hv
            cases hv2 : v with
            | ref b2 => rw [hv2] at hveq; cases hveq; rw [hv2] at this; exact this
            | hnull => rw [hv2] at hveq; exact Option.noConfusion hveq
            | hbool b2 => rw [hv2] at hveq; exact Option.noConfusion hveq
            | hnum m2 => rw [hv2] at hveq; exact Option.noConfusion hveq
            | hstr s2 => rw [hv2] at hveq; exact Option.noConfusion hveq
          obtain ⟨hag2, hok2⟩ := (ihn.2) _ (childRefsE es) hσ' hch
          refine ⟨?_, hok2⟩
          intro b hb
          rw [hag2 b hb]
          exact List.getElem?_set_ne (fun h => absurd ha (by omega))
    refine ⟨hA, ?_⟩
    intro σ addrs
    induction addrs generalizing σ with
    | nil =>
      intro hσ has
      rw [renderChildren]
      exact ⟨fun b hb => rfl, hσ⟩
    | cons a rest ih =>
      intro hσ has
      rw [renderChildren]
      obtain ⟨hag1, hok1⟩ := hA σ a hσ (has a (List.mem_cons_self a rest))
      obtain ⟨hag2, hok2⟩ := ih (renderAddr rf (n+1) σ a) hok1
        (fun x hx => has x (List.mem_cons_of_mem a hx))
      exact ⟨fun b hb => (hag2 b hb).trans (hag1 b hb), hok2⟩

/-- Modelled from the spec: `deepCopyMap` — a nil map copies to nil,
any other map is deep-copied into fresh cells (the optional
warning-hook logger of the Go helper does not affect the heap and is
omitted). -/
def deepCopyMap (n : Nat) (σ : Store) : Option Nat → Store × Option Nat
  | none => (σ, none)
  | some a =>
    match copyVal n σ (.ref a) with
    | (σ', .ref a') => (σ', some a')
    | (σ', _) => (σ', none)

/-- Modelled from the spec: the resource step renders the template
rooted at `a` on a deep copy of it, never on the original. -/
def renderResourceStep (rf : String → String) (n : Nat) (σ : Store) (a : Nat) :
    Store × Option Nat :=
  match deepCopyMap n σ (some a) with
  | (σ₂, some a') => (renderAddr rf n σ₂ a', some a')
  | (σ₂, none) => (σ₂, none)

/-- Copying a readable reference yields a reference into the fresh tail. -/
theorem copyVal_ref_shape (n : Nat) (σ : Store) (a : Nat) (j : JValue)
    (h : readVal n σ (.ref a) = some j) :
    ∃ a', (copyVal n σ (.ref a)).2 = HVal.ref a' ∧ σ.length ≤ a' := by
  cases n with
  | zero => rw [readVal] at h; exact absurd h (by simp)
  | succ m =>
    rw [readVal] at h
    cases hnd : σ[a]? with
    | none => rw [hnd] at h; simp at h
    | some nd =>
      cases nd with
      | mapN fs =>
        simp only [hnd] at h
        cases hfs : readFields m σ fs with
        | none => rw [hfs] at h; simp at h
        | some js =>
          obtain ⟨⟨τ, hext⟩, _, _, _⟩ := copyFields_correct_of m (copyVal_correct m) fs σ js hfs
          refine ⟨(copyFields m σ fs).1.length, ?_, ?_⟩
          · rw [copyVal]; simp only [hnd]
          · rw [hext]; simp
      | sliceN es =>
        simp only [hnd] at h
        cases hes : readElems m σ es with
        | none => rw [hes] at h; simp at h
        | some js =>
          obtain ⟨⟨τ, hext⟩, _, _, _⟩ := copyElems_correct_of m (copyVal_correct m) es σ js hes
          refine ⟨(copyElems m σ es).1.length, ?_, ?_⟩
          · rw [copyVal]; simp only [hnd]
          · rw [hext]; simp

/-- After a resource render step the original template reads back
unchanged: the render only touches the fresh copy. -/
theorem render_preserves_original (rf : String → String) (n : Nat) (σ : Store) (a : Nat)
    (j : JValue) (h : readVal n σ (.ref a) = some j) :
    readVal n (renderResourceStep rf n σ a).1 (.ref a) = some j := by
  obtain ⟨⟨τ, hext⟩, hread, hrefs, hhigh⟩ := copyVal_correct n σ (.ref a) j h
  obtain ⟨a', ha', hge⟩ := copyVal_ref_shape n σ a j h
  have hpair : copyVal n σ (.ref a) = ((copyVal n σ (.ref a)).1, HVal.ref a') := by
    rw [← ha']
  have hdc : deepCopyMap n σ (some a) = ((copyVal n σ (.ref a)).1, some a') := by
    rw [deepCopyMap, hpair]
  have hrrs : renderResourceStep rf n σ a =
      (renderAddr rf n (copyVal n σ (.ref a)).1 a', some a') := by
    rw [renderResourceStep, hdc]
  rw [hrrs]
  obtain ⟨hag, _⟩ := (renderFrame rf σ.length n).1 (copyVal n σ (.ref a)).1 a' hhigh hge
  apply readVal_agree σ _ ?_ n _ j h
  intro b hb
  rw [hag b hb, hext]
  exact List.getElem?_append_left hb

/-- Claim C9: deep copy is isolating. For every readable map/slice tree
(read with fuel `n`, covering every tree of depth at most `n`, in
particular depth ≤ 8): the copy reads back structurally equal to the
original; it lives entirely in fresh cells which reference only fresh
cells, and mutating any such cell — any nested map entry or slice
element of the copy — is unobservable in the original; nil maps copy to
nil; and the resource render step operates on such a copy, so the
source template reads back unchanged after the step. -/
theorem deepCopy_isolating (n : Nat) (σ : Store) (v : HVal) (j : JValue)
    (h : readVal n σ v = some j) :
    readVal n (copyVal n σ v).1 (copyVal n σ v).2 = some j
    ∧ refGE σ.length (copyVal n σ v).2
    ∧ StoreHighOK σ.length (copyVal n σ v).1
    ∧ (∀ (a : Nat) (w : HNode), σ.length ≤ a →
        readVal n ((copyVal n σ v).1.set a w) v = some j)
    ∧ deepCopyMap n σ none = (σ, none)
    ∧ (∀ (rf : String → String) (a : Nat), v = .ref a →
        readVal n (renderResourceStep rf n σ a).1 (.ref a) = some j) := by
  obtain ⟨⟨τ, hext⟩, hread, hrefs, hhigh⟩ := copyVal_correct n σ v j h
  refine ⟨hread, hrefs, hhigh, ?_, rfl, ?_⟩
  · intro a w ha
    apply readVal_agree σ _ ?_ n v j h
    intro b hb
    have hba : a ≠ b := by omega
    rw [List.getElem?_set_ne hba, hext]
    exact List.getElem?_append_left hb
  · intro rf a hva
    subst hva
    exact render_preserves_original rf n σ a j h

/-- A concrete two-node heap: node 1 is a map holding a reference to
node 0 and a string leaf. -/
def exStore : Store :=
  [HNode.mapN [("k", .hstr "x")],
   HNode.mapN [("m", .ref 0), ("s", .hstr "tmpl")]]

/-- The tree node 1 denotes. -/
def exJ : JValue :=
  .obj [("m", .obj [("k", .str "x")]), ("s", .str "tmpl")]

/-- Witness for C9 at the concrete heap: the copy of node 1 reads back
to the same tree. -/
theorem deepCopy_isolating_witness :
    readVal 3 (copyVal 3 exStore (.ref 1)).1 (copyVal 3 exStore (.ref 1)).2 = some exJ :=
  (deepCopy_isolating 3 exStore (.ref 1) exJ
    (by simp [exStore, exJ, readVal, readFields, readElems])).1

end HF
